import Mathlib

/-!
Verification of the bag-creation pipeline of `bagit/__init__.py`.

The development shallowly embeds the Python source into Lean:

* bytes are `Nat` values (reduced mod 256 where words are assembled);
* `hashlib.md5` is embedded as a full MD5 implementation over `List Nat`
  (32-bit words are `Nat` with explicit reduction mod 2^32);
* the filesystem is an explicit tree `FSNode`; paths are `List String`;
* `make_bag`, `_make_manifest`, `_walk` and `_manifest_line` are translated
  function by function, with `multiprocessing.Pool.map` modelled as the
  chunked map that it is (chunks are dispatched to workers, results are
  reassembled in input order).
-/

set_option maxRecDepth 100000

namespace Bagit

/-! ## MD5 (embedding of `hashlib.md5`)

Words are `Nat` kept below `2^32`; every operation reduces mod `2^32`. -/

def M32 : Nat := 4294967296

def add32 (a b : Nat) : Nat := (a + b) % M32

/-- Bitwise complement on 32-bit words, as xor with the all-ones word. -/
def not32 (a : Nat) : Nat := Nat.xor a 4294967295

/-- Left-rotation of a 32-bit word: the two shifted parts occupy disjoint
bit positions, so their sum is their bitwise or. -/
def rotl32 (x s : Nat) : Nat := (x * 2 ^ s) % M32 + x / 2 ^ (32 - s)

/-- Round-shift table of MD5. -/
def md5S : List Nat :=
  [7, 12, 17, 22, 7, 12, 17, 22, 7, 12, 17, 22, 7, 12, 17, 22,
   5, 9, 14, 20, 5, 9, 14, 20, 5, 9, 14, 20, 5, 9, 14, 20,
   4, 11, 16, 23, 4, 11, 16, 23, 4, 11, 16, 23, 4, 11, 16, 23,
   6, 10, 15, 21, 6, 10, 15, 21, 6, 10, 15, 21, 6, 10, 15, 21]

/-- Round-constant table of MD5: `floor (2^32 * |sin (i+1)|)`. -/
def md5K : List Nat :=
  [3614090360, 3905402710, 606105819, 3250441966, 4118548399, 1200080426, 2821735955, 4249261313,
   1770035416, 2336552879, 4294925233, 2304563134, 1804603682, 4254626195, 2792965006, 1236535329,
   4129170786, 3225465664, 643717713, 3921069994, 3593408605, 38016083, 3634488961, 3889429448,
   568446438, 3275163606, 4107603335, 1163531501, 2850285829, 4243563512, 1735328473, 2368359562,
   4294588738, 2272392833, 1839030562, 4259657740, 2763975236, 1272893353, 4139469664, 3200236656,
   681279174, 3936430074, 3572445317, 76029189, 3654602809, 3873151461, 530742520, 3299628645,
   4096336452, 1126891415, 2878612391, 4237533241, 1700485571, 2399980690, 4293915773, 2240044497,
   1873313359, 4264355552, 2734768916, 1309151649, 4149444226, 3174756917, 718787259, 3951481745]

/-- Little-endian 32-bit word number `i` of a 64-byte block. -/
def wordAt (block : List Nat) (i : Nat) : Nat :=
  block.getD (4 * i) 0 % 256 + block.getD (4 * i + 1) 0 % 256 * 256 +
    block.getD (4 * i + 2) 0 % 256 * 65536 + block.getD (4 * i + 3) 0 % 256 * 16777216

/-- One of the 64 MD5 operations on the running state `(a, b, c, d)`. -/
def md5round (block : List Nat) (st : Nat × Nat × Nat × Nat) (i : Nat) :
    Nat × Nat × Nat × Nat :=
  let a := st.1; let b := st.2.1; let c := st.2.2.1; let d := st.2.2.2
  let f :=
    if i < 16 then Nat.lor (Nat.land b c) (Nat.land (not32 b) d)
    else if i < 32 then Nat.lor (Nat.land d b) (Nat.land (not32 d) c)
    else if i < 48 then Nat.xor b (Nat.xor c d)
    else Nat.xor c (Nat.lor b (not32 d))
  let g :=
    if i < 16 then i
    else if i < 32 then (5 * i + 1) % 16
    else if i < 48 then (3 * i + 5) % 16
    else (7 * i) % 16
  let tmp := add32 f (add32 a (add32 (md5K.getD i 0) (wordAt block g)))
  (d, add32 b (rotl32 tmp (md5S.getD i 0)), b, c)

/-- Digest one 64-byte block into the running state. -/
def md5block (st : Nat × Nat × Nat × Nat) (block : List Nat) :
    Nat × Nat × Nat × Nat :=
  let e := (List.range 64).foldl (md5round block) st
  (add32 st.1 e.1, add32 st.2.1 e.2.1, add32 st.2.2.1 e.2.2.1, add32 st.2.2.2 e.2.2.2)

/-- Split a list into consecutive chunks of `size` elements; `fuel` bounds
the number of chunks (callers pass the list length, which always suffices
for positive `size`). -/
def chunkList {α : Type} (size : Nat) : Nat → List α → List (List α)
  | 0, _ => []
  | _, [] => []
  | fuel + 1, bs => bs.take size :: chunkList size fuel (bs.drop size)

/-- MD5 padding: a `0x80` byte, zeros to 56 mod 64, then the bit length as
eight little-endian bytes. -/
def md5pad (msg : List Nat) : List Nat :=
  let L := msg.length
  let k := (119 - L % 64) % 64
  msg.map (· % 256) ++ [128] ++ List.replicate k 0 ++
    (List.range 8).map (fun i => 8 * L / 2 ^ (8 * i) % 256)

/-- The sixteen digest bytes of a message. -/
def md5bytes (msg : List Nat) : List Nat :=
  let padded := md5pad msg
  let st := (chunkList 64 padded.length padded).foldl md5block
    (1732584193, 4023233417, 2562383102, 271733878)
  [st.1, st.2.1, st.2.2.1, st.2.2.2].flatMap
    (fun w => (List.range 4).map (fun i => w / 2 ^ (8 * i) % 256))

/-- The sixteen lowercase hexadecimal digits. -/
def hexDigits : List Char := "0123456789abcdef".data

def hexChar (n : Nat) : Char := hexDigits.getD n '0'

/-- Two lowercase hex digits of one byte. -/
def byteHex (b : Nat) : List Char := [hexChar (b % 256 / 16), hexChar (b % 16)]

/-- Embedding of `m.hexdigest()`: the lowercase hexadecimal MD5 digest. -/
def md5hex (msg : List Nat) : String := String.mk ((md5bytes msg).flatMap byteHex)

/-- ASCII bytes of a string, for writing text files into the filesystem tree. -/
def strBytes (s : String) : List Nat := s.data.map Char.toNat

/-! ## Filesystem model

A directory tree: files hold bytes, directories hold a finite list of named
entries in `os.listdir` order. `Entries` is a bespoke list so that the two
types form an ordinary mutual inductive pair. -/

mutual
inductive FSNode where
  | file (content : List Nat)
  | dir (entries : Entries)
deriving DecidableEq
inductive Entries where
  | enil
  | econs (name : String) (node : FSNode) (rest : Entries)
deriving DecidableEq
end

/-- Entry names in `os.listdir` order. -/
def Entries.names : Entries → List String
  | .enil => []
  | .econs n _ r => n :: r.names

/-- Directory containment test for one entry name. -/
def Entries.hasName : Entries → String → Bool
  | .enil, _ => false
  | .econs m _ r, name => m = name || r.hasName name

/-- Append a fresh entry at the end (where a new directory entry appears). -/
def Entries.push : Entries → String → FSNode → Entries
  | .enil, name, n => .econs name n .enil
  | .econs m x r, name, n => .econs m x (r.push name n)

def Entries.append : Entries → Entries → Entries
  | .enil, es => es
  | .econs m x r, es => .econs m x (r.append es)

def Entries.lookupName : Entries → String → Option FSNode
  | .enil, _ => none
  | .econs m x r, name => if m = name then some x else r.lookupName name

/-- Remove the entry of the given name (the unlink half of `os.rename`). -/
def Entries.removeName : Entries → String → Entries
  | .enil, _ => .enil
  | .econs m x r, name => if m = name then r else .econs m x (r.removeName name)

/-- Descend through a directory's entries along `name :: rest`. -/
def getInDir : Entries → String → List String → Option FSNode
  | .enil, _, _ => none
  | .econs m x r, name, rest =>
      if m = name then
        match rest with
        | [] => some x
        | n2 :: r2 =>
          match x with
          | .file _ => none
          | .dir des => getInDir des n2 r2
      else getInDir r name rest

/-- Node reached from `fs` along the absolute path `p`. -/
def getNode (fs : FSNode) (p : List String) : Option FSNode :=
  match p with
  | [] => some fs
  | name :: rest =>
    match fs with
    | .file _ => none
    | .dir es => getInDir es name rest

/-- Replace the node along `name :: rest`; unreachable paths leave the tree
unchanged. -/
def setInDir : Entries → String → List String → FSNode → Entries
  | .enil, _, _, _ => .enil
  | .econs m x r, name, rest, repl =>
      if m = name then
        match rest with
        | [] => .econs m repl r
        | n2 :: r2 =>
          match x with
          | .file c => .econs m (.file c) r
          | .dir des => .econs m (.dir (setInDir des n2 r2 repl)) r
      else .econs m x (setInDir r name rest repl)

def setNode (fs : FSNode) (p : List String) (repl : FSNode) : FSNode :=
  match p with
  | [] => repl
  | name :: rest =>
    match fs with
    | .file c => .file c
    | .dir es => .dir (setInDir es name rest repl)

/-- Embedding of `os.path.isdir`. -/
def isDirAt (fs : FSNode) (p : List String) : Bool :=
  match getNode fs p with
  | some (.dir _) => true
  | _ => false

/-! ## Tree walker (embedding of `_walk` over `os.walk`)

`os.walk` is top-down: it yields the current directory's file names in
`os.listdir` order, then recurses into each subdirectory in `os.listdir`
order; `_walk` joins each file name onto its dirpath with `os.path.join`. -/

def pathJoin (p n : String) : String := p ++ "/" ++ n

/-- File entries of one directory level, paired with their contents. -/
def filesOf (p : String) : Entries → List (String × List Nat)
  | .enil => []
  | .econs name (.file c) r => (pathJoin p name, c) :: filesOf p r
  | .econs _ (.dir _) r => filesOf p r

/-- Recursive descent of `os.walk` below one directory level. -/
def walkSubdirs (p : String) : Entries → List (String × List Nat)
  | .enil => []
  | .econs _ (.file _) r => walkSubdirs p r
  | .econs name (.dir des) r =>
      (filesOf (pathJoin p name) des ++ walkSubdirs (pathJoin p name) des) ++ walkSubdirs p r

/-- All files below a directory, in the order `_walk` yields them. -/
def walkDir (p : String) (es : Entries) : List (String × List Nat) :=
  filesOf p es ++ walkSubdirs p es

/-- Embedding of `_walk data_dir`: walking a file path yields nothing. -/
def walk (p : String) (fs : FSNode) : List (String × List Nat) :=
  match fs with
  | .file _ => []
  | .dir es => walkDir p es

/-- Number of files in a directory tree. -/
def countFiles : Entries → Nat
  | .enil => 0
  | .econs _ (.file _) r => 1 + countFiles r
  | .econs _ (.dir des) r => countFiles des + countFiles r

/-- Total byte count of the files in a directory tree. -/
def totalBytes : Entries → Nat
  | .enil => 0
  | .econs _ (.file c) r => c.length + totalBytes r
  | .econs _ (.dir des) r => totalBytes des + totalBytes r

/-! ## Digest worker (embedding of `_manifest_line`)

The opened file is played by its byte content. The loop reads 16384-byte
pieces until a read returns nothing, counting the bytes of every read
(including the final empty one) and feeding each non-empty piece to
`m.update`; `hashlib` digests the concatenation of all updates. `fuel`
bounds the iterations; one more than the content length always suffices. -/

def readLoop : Nat → List (List Nat) → Nat → List Nat → List (List Nat) × Nat
  | 0, chunks, total, _ => (chunks, total)
  | fuel + 1, chunks, total, rest =>
      let piece := rest.take 16384
      let total' := total + piece.length
      if piece.isEmpty then (chunks, total')
      else readLoop fuel (chunks ++ [piece]) total' (rest.drop 16384)

/-- Embedding of `_manifest_line`: the digest of all updates, the filename,
and the byte total. -/
def manifest_line (filename : String) (content : List Nat) : String × String × Nat :=
  let r := readLoop (content.length + 1) [] 0 content
  (md5hex r.1.flatten, filename, r.2)

/-! ## Worker pool (embedding of `multiprocessing.Pool.map`)

`Pool.map` cuts the iterable into chunks of a size derived from the length
and the pool size, dispatches the chunks to workers, and reassembles the
chunk results in input order no matter which worker finishes first. -/

/-- Chunk size chosen by `Pool.map`: `divmod(len, processes * 4)`, plus one
when there is a remainder. -/
def poolChunkSize (len processes : Nat) : Nat :=
  len / (processes * 4) + (if len % (processes * 4) = 0 then 0 else 1)

def poolMap {α β : Type} (processes : Nat) (f : α → β) (xs : List α) : List β :=
  let size := poolChunkSize xs.length processes
  ((chunkList size xs.length xs).map (List.map f)).flatten

/-! ## Parallel manifest builder (embedding of `_make_manifest`) -/

/-- What `_make_manifest` leaves behind: the lines written to the manifest
file, in write order, and the returned Oxum string. -/
structure ManifestOut where
  lines : List String
  oxum : String
deriving DecidableEq

/-- Embedding of `_make_manifest`: fold over the pool results accumulating
the manifest lines, the file count and the byte total, then render the Oxum
as `"%s.%s" % (total_bytes, num_files)`. -/
def make_manifest (processes : Nat) (files : List (String × List Nat)) : ManifestOut :=
  let results := poolMap processes (fun fc => manifest_line fc.1 fc.2) files
  let st := results.foldl
    (fun (acc : List String × Nat × Nat) r =>
      (acc.1 ++ [r.1 ++ "  " ++ r.2.1 ++ "\n"], acc.2.1 + 1, acc.2.2 + r.2.2))
    ([], 0, 0)
  { lines := st.1, oxum := toString st.2.2 ++ "." ++ toString st.2.1 }

/-! ## Metadata serializer (the `bag-info.txt` part of `make_bag`) -/

/-- Value stored under a key of the `bag_info` dictionary (Python raises on
a missing key; the loop only looks up keys of the dictionary). -/
def lookupD : List (String × String) → String → String
  | [], _ => ""
  | e :: r, k => if e.1 = k then e.2 else lookupD r k

/-- Embedding of `bag_info[k] = v` on a Python dictionary: replace the value
of an existing key, otherwise add the key. -/
def setKey : List (String × String) → String → String → List (String × String)
  | [], k, v => [(k, v)]
  | e :: r, k, v => if e.1 = k then (k, v) :: r else e :: setKey r k v

/-- Lexicographic comparison of character lists by code point, the order
Python's `str` comparison uses. -/
def charsLe : List Char → List Char → Bool
  | [], _ => true
  | _ :: _, [] => false
  | c :: cs, d :: ds =>
      if c.toNat < d.toNat then true
      else if d.toNat < c.toNat then false
      else charsLe cs ds

/-- Strict variant of the same comparison. -/
def charsLt : List Char → List Char → Bool
  | [], [] => false
  | [], _ :: _ => true
  | _ :: _, [] => false
  | c :: cs, d :: ds =>
      if c.toNat < d.toNat then true
      else if d.toNat < c.toNat then false
      else charsLt cs ds

/-- Python's `<=` on strings. -/
def headerLe (a b : String) : Prop := charsLe a.data b.data = true

/-- Python's `<` on strings. -/
def headerLt (a b : String) : Prop := charsLt a.data b.data = true

instance : DecidableRel headerLe := fun a b => by unfold headerLe; infer_instance

instance : DecidableRel headerLt := fun a b => by unfold headerLt; infer_instance

/-- Embedding of the `bag-info.txt` write loop: `headers = bag_info.keys()`,
`headers.sort()`, then one `"%s: %s\n" % (h, bag_info[h])` line per header. -/
def bag_info_lines (bi : List (String × String)) : List String :=
  (List.insertionSort headerLe (bi.map Prod.fst)).map
    (fun h => h ++ ": " ++ lookupD bi h ++ "\n")

/-! ## Bag assembler (embedding of `make_bag`) -/

/-- Working state of the process: the filesystem and the current working
directory (`make_bag` changes it and must restore it). -/
structure PState where
  fs : FSNode
  cwd : List String
deriving DecidableEq

/-- Observable outcome of one `make_bag` call: the filesystem, the working
directory, the exception propagated to the caller (if any), the caller's
`bag_info` dictionary after the call (`make_bag` mutates it in place), and
the messages passed to `logging.error`. -/
structure MBOut where
  fs : FSNode
  cwd : List String
  err : Option String
  bag_info : Option (List (String × String))
  log_errors : List String
deriving DecidableEq

/-- Fixed content of the declaration file `bagit.txt`. -/
def bagit_txt : String := "BagIt-Version: 0.96\nTag-File-Character-Encoding: UTF-8\n"

def pathStr (p : List String) : String := String.intercalate "/" p

/-- Embedding of `open(name, 'w').write(content)` inside one directory:
truncate an existing entry of that name, otherwise create it at the end. -/
def Entries.setFile : Entries → String → List Nat → Entries
  | .enil, name, c => .econs name (.file c) .enil
  | .econs m x r, name, c =>
      if m = name then .econs m (.file c) r else .econs m x (r.setFile name c)

/-- Embedding of `os.rename(f, os.path.join('data', f))`: detach the entry
named `f` and append it to the entries of the `data` directory. -/
def Entries.addUnderData : Entries → String → FSNode → Entries
  | .enil, _, _ => .enil
  | .econs m x r, f, n =>
      if m = "data" then
        match x with
        | .dir des => .econs m (.dir (des.push f n)) r
        | .file c => .econs m (.file c) r
      else .econs m x (r.addUnderData f n)

def renameIntoData (es : Entries) (f : String) : Entries :=
  match es.lookupName f with
  | none => es
  | some n => (es.removeName f).addUnderData f n

/-- One iteration of the rename loop inside `make_bag`. -/
def renameStep (cur : Entries) (f : String) : Entries :=
  if f = "data" then cur else renameIntoData cur f

/-- Embedding of step 1 of `make_bag`: `os.mkdir('data')` then the
`for f in os.listdir('.')` loop of per-entry renames (the name list is the
snapshot taken after the `mkdir`). -/
def reorganize (es : Entries) : Entries :=
  let es1 := es.push "data" (.dir .enil)
  es1.names.foldl renameStep es1

/-- Embedding of `make_bag(bag_dir, bag_info, processes)`. `today` stands
for `date.strftime(date.today(), "%Y-%m-%d")`. The branches mirror the
source: the missing-directory check raises before any change; inside the
`try` block, a failing `os.mkdir('data')` (the directory already has a
`data` entry) is caught by the `except` clause, which only logs it, and the
`finally` clause restores the working directory on every path. -/
def make_bag (st : PState) (bag_dir : List String)
    (bag_info : Option (List (String × String))) (processes : Nat)
    (today : String) : MBOut :=
  match getNode st.fs bag_dir with
  | some (.dir es) =>
      if es.hasName "data" then
        { fs := st.fs, cwd := st.cwd, err := none, bag_info := bag_info,
          log_errors := ["[Errno 17] File exists: data"] }
      else
        let es1 := reorganize es
        let files :=
          match es1.lookupName "data" with
          | some n => walk "data" n
          | none => []
        let mo := make_manifest processes files
        let es2 := es1.setFile "manifest-md5.txt" (strBytes (String.join mo.lines))
        let es3 := es2.setFile "bagit.txt" (strBytes bagit_txt)
        let bi := setKey (setKey (bag_info.getD []) "Bagging-Date" today) "Payload-Oxum" mo.oxum
        let es4 := es3.setFile "bag-info.txt" (strBytes (String.join (bag_info_lines bi)))
        { fs := setNode st.fs bag_dir (.dir es4), cwd := st.cwd, err := none,
          bag_info := bag_info.map
            (fun m => setKey (setKey m "Bagging-Date" today) "Payload-Oxum" mo.oxum),
          log_errors := [] }
  | _ =>
      { fs := st.fs, cwd := st.cwd,
        err := some ("no such bag directory " ++ pathStr bag_dir),
        bag_info := bag_info,
        log_errors := ["no such bag directory " ++ pathStr bag_dir] }

/-! ## Concrete test trees -/

/-- The scenario directory of the spec: `a.txt` holding "hi" and `sub/b.txt`
holding "yo". -/
def dEntries : Entries :=
  .econs "a.txt" (.file (strBytes "hi"))
    (.econs "sub" (.dir (.econs "b.txt" (.file (strBytes "yo")) .enil)) .enil)

/-- A filesystem holding the scenario directory at path `d`; the working
directory is `w`. -/
def st9 : PState := ⟨.dir (.econs "d" (.dir dEntries) .enil), ["w"]⟩

/-- A filesystem whose bag directory `d` already contains an entry named
`data`, which makes `os.mkdir('data')` raise. -/
def stClash : PState :=
  ⟨.dir (.econs "d" (.dir (.econs "data" (.file []) .enil)) .enil), ["w"]⟩

/-- A payload of one file `a.txt` holding "hi". -/
def oneFileEntries : Entries := .econs "a.txt" (.file (strBytes "hi")) .enil

/-! ## Lemmas about chunking, the read loop, the pool and the manifest -/

theorem chunkList_flatten {α : Type} (size : Nat) (hs : 0 < size) :
    ∀ (fuel : Nat) (bs : List α), bs.length ≤ fuel →
      (chunkList size fuel bs).flatten = bs := by
  intro fuel
  induction fuel with
  | zero =>
    intro bs h
    have : bs = [] := List.eq_nil_of_length_eq_zero (Nat.le_zero.mp h)
    subst this
    simp [chunkList]
  | succ n ih =>
    intro bs h
    cases bs with
    | nil => simp [chunkList]
    | cons b tl =>
      rw [List.length_cons] at h
      have hdrop : ((b :: tl).drop size).length ≤ n := by
        rw [List.length_drop, List.length_cons]
        omega
      simp only [chunkList, List.flatten_cons, ih _ hdrop, List.take_append_drop]

theorem chunkList_fuel_irrel {α : Type} (size : Nat) (hs : 0 < size) :
    ∀ (f1 f2 : Nat) (bs : List α), bs.length ≤ f1 → bs.length ≤ f2 →
      chunkList size f1 bs = chunkList size f2 bs := by
  intro f1
  induction f1 with
  | zero =>
    intro f2 bs h1 _
    have : bs = [] := List.eq_nil_of_length_eq_zero (Nat.le_zero.mp h1)
    subst this
    cases f2 <;> simp [chunkList]
  | succ n ih =>
    intro f2 bs h1 h2
    cases bs with
    | nil => cases f2 <;> simp [chunkList]
    | cons b tl =>
      cases f2 with
      | zero => simp at h2
      | succ m =>
        rw [List.length_cons] at h1 h2
        have hd : ((b :: tl).drop size).length ≤ n := by
          rw [List.length_drop, List.length_cons]; omega
        have hd2 : ((b :: tl).drop size).length ≤ m := by
          rw [List.length_drop, List.length_cons]; omega
        simp only [chunkList, ih _ _ hd hd2]

theorem chunkList_mem_length {α : Type} (size : Nat) :
    ∀ (fuel : Nat) (bs : List α) (ch : List α),
      ch ∈ chunkList size fuel bs → ch.length ≤ size := by
  intro fuel
  induction fuel with
  | zero => intro bs ch h; simp [chunkList] at h
  | succ n ih =>
    intro bs ch h
    cases bs with
    | nil => simp [chunkList] at h
    | cons b tl =>
      simp only [chunkList, List.mem_cons] at h
      rcases h with h | h
      · subst h; simp
      · exact ih _ _ h

theorem readLoop_eq :
    ∀ (fuel : Nat) (rest : List Nat) (chunks : List (List Nat)) (total : Nat),
      rest.length < fuel →
      readLoop fuel chunks total rest =
        (chunks ++ chunkList 16384 rest.length rest, total + rest.length) := by
  intro fuel
  induction fuel with
  | zero => intro rest chunks total h; omega
  | succ n ih =>
    intro rest chunks total h
    cases rest with
    | nil => simp [readLoop, chunkList]
    | cons b tl =>
      rw [List.length_cons] at h
      have hne : ¬ ((b :: tl).take 16384).isEmpty = true := by
        simp [List.isEmpty_iff]
      have hd : ((b :: tl).drop 16384).length < n := by
        rw [List.length_drop, List.length_cons]
        omega
      simp only [readLoop, hne, if_false, ih _ _ _ hd]
      have e1 : chunkList 16384 (b :: tl).length (b :: tl) =
          (b :: tl).take 16384 ::
            chunkList 16384 ((b :: tl).drop 16384).length ((b :: tl).drop 16384) := by
        rw [List.length_cons]
        simp only [chunkList]
        rw [chunkList_fuel_irrel 16384 (by omega) tl.length ((b :: tl).drop 16384).length
          ((b :: tl).drop 16384) (by rw [List.length_drop, List.length_cons]; omega) le_rfl]
      have e2 : ((b :: tl).take 16384).length + ((b :: tl).drop 16384).length
          = (b :: tl).length := by
        rw [← List.length_append, List.take_append_drop]
      rw [e1]
      refine congrArg₂ Prod.mk ?_ ?_
      · simp
      · omega

theorem manifest_line_eq (fn : String) (c : List Nat) :
    manifest_line fn c = (md5hex c, fn, c.length) := by
  unfold manifest_line
  rw [readLoop_eq (c.length + 1) c [] 0 (Nat.lt_succ_self _)]
  simp [chunkList_flatten 16384 (by omega) c.length c le_rfl]

theorem poolChunkSize_pos (len p : Nat) (h : 0 < len) : 0 < poolChunkSize len p := by
  unfold poolChunkSize
  by_cases h0 : len % (p * 4) = 0
  · simp only [h0, if_true]
    have hp : 0 < p * 4 := by
      by_contra hz
      have hz0 : p * 4 = 0 := by omega
      rw [hz0, Nat.mod_zero] at h0
      omega
    have hd : p * 4 ∣ len := Nat.dvd_of_mod_eq_zero h0
    have hle : p * 4 ≤ len := Nat.le_of_dvd h hd
    have := Nat.div_pos hle hp
    simpa using this
  · rw [if_neg h0]
    exact Nat.succ_pos _

theorem poolMap_eq_map {α β : Type} (p : Nat) (f : α → β) (xs : List α) :
    poolMap p f xs = xs.map f := by
  cases xs with
  | nil => simp [poolMap, chunkList]
  | cons x tl =>
    unfold poolMap
    have hpos : 0 < poolChunkSize (x :: tl).length p :=
      poolChunkSize_pos _ _ (by simp)
    rw [← List.map_flatten,
      chunkList_flatten _ hpos (x :: tl).length (x :: tl) le_rfl]

theorem manifest_foldl (results : List (String × String × Nat)) :
    ∀ (acc : List String × Nat × Nat),
      results.foldl
        (fun (acc : List String × Nat × Nat) r =>
          (acc.1 ++ [r.1 ++ "  " ++ r.2.1 ++ "\n"], acc.2.1 + 1, acc.2.2 + r.2.2)) acc =
      (acc.1 ++ results.map (fun r => r.1 ++ "  " ++ r.2.1 ++ "\n"),
        acc.2.1 + results.length,
        acc.2.2 + (results.map (fun r => r.2.2)).sum) := by
  induction results with
  | nil => intro acc; simp
  | cons r tl ih =>
    intro acc
    simp only [List.foldl_cons, ih, List.map_cons, List.length_cons, List.sum_cons]
    refine congrArg₂ _ ?_ (congrArg₂ _ (by omega) (by omega))
    simp

theorem make_manifest_eq (p : Nat) (files : List (String × List Nat)) :
    make_manifest p files =
      { lines := files.map (fun fc => md5hex fc.2 ++ "  " ++ fc.1 ++ "\n"),
        oxum := toString ((files.map (fun fc => fc.2.length)).sum) ++ "." ++
          toString files.length } := by
  simp only [make_manifest, poolMap_eq_map, manifest_foldl]
  simp [manifest_line_eq, Function.comp_def]

/-! ## Lemmas about the walker -/

theorem walk_count (p : String) (es : Entries) :
    (filesOf p es ++ walkSubdirs p es).length = countFiles es := by
  induction p, es using walkSubdirs.induct with
  | _ => simp_all [filesOf, walkSubdirs, countFiles] <;> omega

theorem walk_bytes (p : String) (es : Entries) :
    ((filesOf p es ++ walkSubdirs p es).map (fun fc => fc.2.length)).sum = totalBytes es := by
  induction p, es using walkSubdirs.induct with
  | _ => simp_all [filesOf, walkSubdirs, totalBytes] <;> omega

theorem walkDir_count (p : String) (es : Entries) :
    (walkDir p es).length = countFiles es := walk_count p es

theorem walkDir_bytes (p : String) (es : Entries) :
    ((walkDir p es).map (fun fc => fc.2.length)).sum = totalBytes es := walk_bytes p es

theorem walk_path_shape (p : String) (es : Entries) :
    ∀ fc ∈ filesOf p es ++ walkSubdirs p es, ∃ r, fc.1 = p ++ "/" ++ r := by
  induction p, es using walkSubdirs.induct with
  | case1 p => intro fc hfc; simp [filesOf, walkSubdirs] at hfc
  | case2 p name c r ih =>
    intro fc hfc
    simp only [filesOf, walkSubdirs, List.cons_append, List.mem_cons] at hfc
    rcases hfc with h | h
    · exact ⟨name, by rw [h]; simp [pathJoin]⟩
    · exact ih fc h
  | case3 p name des r ih1 ih2 =>
    intro fc hfc
    simp only [filesOf, walkSubdirs, List.mem_append] at hfc
    rcases hfc with h | (h | h) | h
    · exact ih2 fc (List.mem_append_left _ h)
    · rcases ih1 fc (List.mem_append_left _ h) with ⟨r2, hr2⟩
      exact ⟨name ++ "/" ++ r2, by
        rw [hr2]; simp [pathJoin, String.append_assoc]⟩
    · rcases ih1 fc (List.mem_append_right _ h) with ⟨r2, hr2⟩
      exact ⟨name ++ "/" ++ r2, by
        rw [hr2]; simp [pathJoin, String.append_assoc]⟩
    · exact ih2 fc (List.mem_append_right _ h)

/-! ## Lemmas about the header sort order -/

theorem charsLe_total : ∀ (xs ys : List Char),
    charsLe xs ys = true ∨ charsLe ys xs = true := by
  intro xs
  induction xs with
  | nil => intro ys; left; cases ys <;> simp [charsLe]
  | cons c cs ih =>
    intro ys
    cases ys with
    | nil => right; simp [charsLe]
    | cons d ds =>
      by_cases h1 : c.toNat < d.toNat
      · left; simp [charsLe, h1]
      · by_cases h2 : d.toNat < c.toNat
        · right; simp [charsLe, h2]
        · rcases ih ds with h | h
          · left; simp [charsLe, h1, h2, h]
          · right; simp [charsLe, h1, h2, h]

theorem char_toNat_inj {c d : Char} (h : c.toNat = d.toNat) : c = d :=
  Char.eq_of_val_eq (UInt32.eq_of_toBitVec_eq (BitVec.eq_of_toNat_eq h))

theorem charsLe_trans : ∀ (xs ys zs : List Char),
    charsLe xs ys = true → charsLe ys zs = true → charsLe xs zs = true := by
  intro xs
  induction xs with
  | nil => intro ys zs _ _; cases zs <;> simp [charsLe]
  | cons c cs ih =>
    intro ys zs h1 h2
    cases ys with
    | nil => simp [charsLe] at h1
    | cons d ds =>
      cases zs with
      | nil => simp [charsLe] at h2
      | cons e es =>
        simp only [charsLe] at h1 h2 ⊢
        rcases Nat.lt_trichotomy c.toNat d.toNat with hcd | hcd | hcd
        · rcases Nat.lt_trichotomy d.toNat e.toNat with hde | hde | hde
          · rw [if_pos (by omega)]
          · rw [if_pos (by omega)]
          · rw [if_neg (by omega), if_pos hde] at h2
            simp at h2
        · rw [if_neg (by omega), if_neg (by omega)] at h1
          rcases Nat.lt_trichotomy d.toNat e.toNat with hde | hde | hde
          · rw [if_pos (by omega)]
          · rw [if_neg (by omega), if_neg (by omega)] at h2
            rw [if_neg (by omega), if_neg (by omega)]
            exact ih ds es h1 h2
          · rw [if_neg (by omega), if_pos hde] at h2
            simp at h2
        · rw [if_neg (by omega), if_pos hcd] at h1
          simp at h1

theorem charsLt_of_le_of_ne : ∀ (xs ys : List Char),
    charsLe xs ys = true → xs ≠ ys → charsLt xs ys = true := by
  intro xs
  induction xs with
  | nil =>
    intro ys h hne
    cases ys with
    | nil => exact absurd rfl hne
    | cons d ds => simp [charsLt]
  | cons c cs ih =>
    intro ys h hne
    cases ys with
    | nil => simp [charsLe] at h
    | cons d ds =>
      simp only [charsLe, charsLt] at h ⊢
      rcases Nat.lt_trichotomy c.toNat d.toNat with h1 | h1 | h1
      · rw [if_pos h1]
      · have hcd : c = d := char_toNat_inj h1
        rw [if_neg (by omega), if_neg (by omega)] at h ⊢
        subst hcd
        have htl : cs ≠ ds := by
          intro hh
          exact hne (by rw [hh])
        exact ih ds h htl
      · rw [if_neg (by omega), if_pos h1] at h
        simp at h

instance : IsTotal String headerLe :=
  ⟨fun a b => by
    unfold headerLe
    rcases charsLe_total a.data b.data with h | h
    · exact Or.inl h
    · exact Or.inr h⟩

instance : IsTrans String headerLe :=
  ⟨fun a b c h1 h2 => charsLe_trans a.data b.data c.data h1 h2⟩

theorem headerLt_of_le_of_ne {a b : String} (h : headerLe a b) (hne : a ≠ b) :
    headerLt a b := by
  unfold headerLe at h
  unfold headerLt
  refine charsLt_of_le_of_ne a.data b.data h ?_
  intro hd
  apply hne
  cases a
  cases b
  exact congrArg String.mk (by simpa using hd)

theorem pairwise_lt_of_sorted_nodup :
    ∀ (l : List String), l.Pairwise headerLe → l.Nodup → l.Pairwise headerLt := by
  intro l
  induction l with
  | nil => intro _ _; exact List.Pairwise.nil
  | cons a tl ih =>
    intro hs hnd
    rw [List.pairwise_cons] at hs ⊢
    rw [List.nodup_cons] at hnd
    refine ⟨fun b hb => ?_, ih hs.2 hnd.2⟩
    have hne : a ≠ b := by
      intro he
      exact hnd.1 (he ▸ hb)
    exact headerLt_of_le_of_ne (hs.1 b hb) hne

/-! ## Lemmas about the metadata dictionary -/

theorem lookupD_setKey_self : ∀ (l : List (String × String)) (k v : String),
    lookupD (setKey l k v) k = v := by
  intro l
  induction l with
  | nil => intro k v; simp [setKey, lookupD]
  | cons e r ih =>
    intro k v
    by_cases h : e.1 = k
    · simp [setKey, h, lookupD]
    · simp [setKey, h, lookupD, ih]

theorem lookupD_setKey_ne : ∀ (l : List (String × String)) (k v k2 : String),
    k ≠ k2 → lookupD (setKey l k v) k2 = lookupD l k2 := by
  intro l
  induction l with
  | nil => intro k v k2 h; simp [setKey, lookupD, h]
  | cons e r ih =>
    intro k v k2 h
    by_cases he : e.1 = k
    · simp [setKey, he, lookupD, h]
    · simp [setKey, he, lookupD, ih _ _ _ h]

theorem keys_setKey : ∀ (l : List (String × String)) (k v : String),
    (setKey l k v).map Prod.fst =
      if k ∈ l.map Prod.fst then l.map Prod.fst else l.map Prod.fst ++ [k] := by
  intro l
  induction l with
  | nil => intro k v; simp [setKey]
  | cons e r ih =>
    intro k v
    by_cases h : e.1 = k
    · simp [setKey, h]
    · have hne2 : ¬ k = e.1 := fun hh => h hh.symm
      simp [setKey, h, ih, hne2]
      by_cases hm : k ∈ r.map Prod.fst <;> simp [hm, hne2]

theorem keys_setKey_nodup (l : List (String × String)) (k v : String)
    (h : (l.map Prod.fst).Nodup) : ((setKey l k v).map Prod.fst).Nodup := by
  rw [keys_setKey]
  by_cases hm : k ∈ l.map Prod.fst
  · simpa [hm] using h
  · simp only [hm, if_false]
    rw [List.nodup_append]
    exact ⟨h, List.nodup_singleton _, by simpa using hm⟩

theorem mem_keys_setKey (l : List (String × String)) (k v : String) :
    k ∈ (setKey l k v).map Prod.fst := by
  rw [keys_setKey]
  by_cases hm : k ∈ l.map Prod.fst <;> simp [hm]

/-! ## Lemmas about the reorganization step -/

theorem push_eq_append : ∀ (es : Entries) (n : String) (x : FSNode),
    es.push n x = es.append (.econs n x .enil)
  | .enil, n, x => by simp [Entries.push, Entries.append]
  | .econs m y r, n, x => by
    simp [Entries.push, Entries.append, push_eq_append r n x]

theorem append_enil : ∀ (es : Entries), es.append .enil = es
  | .enil => by simp [Entries.append]
  | .econs m y r => by simp [Entries.append, append_enil r]

theorem names_append : ∀ (es es2 : Entries),
    (es.append es2).names = es.names ++ es2.names
  | .enil, es2 => by simp [Entries.append, Entries.names]
  | .econs m y r, es2 => by
    simp [Entries.append, Entries.names, names_append r es2]

theorem hasName_append : ∀ (es es2 : Entries) (n : String),
    (es.append es2).hasName n = (es.hasName n || es2.hasName n)
  | .enil, es2, n => by simp [Entries.append, Entries.hasName]
  | .econs m y r, es2, n => by
    by_cases h : m = n <;>
      simp [Entries.append, Entries.hasName, h, hasName_append r es2 n]

theorem append_assoc : ∀ (a b c : Entries),
    (a.append b).append c = a.append (b.append c)
  | .enil, b, c => by simp [Entries.append]
  | .econs m y r, b, c => by simp [Entries.append, append_assoc r b c]

theorem addUnderData_past :
    ∀ (r : Entries), r.hasName "data" = false →
      ∀ (p : Entries) (f : String) (n : FSNode),
        (r.append (.econs "data" (.dir p) .enil)).addUnderData f n =
          r.append (.econs "data" (.dir (p.push f n)) .enil)
  | .enil, _, p, f, n => by
    simp [Entries.append, Entries.addUnderData]
  | .econs m y r, hr, p, f, n => by
    simp only [Entries.hasName, Bool.or_eq_false_iff, decide_eq_false_iff_not] at hr
    simp [Entries.append, Entries.addUnderData, hr.1,
      addUnderData_past r hr.2 p f n]

theorem reorg_loop :
    ∀ (remaining processed : Entries), remaining.hasName "data" = false →
      List.foldl renameStep
        (remaining.append (.econs "data" (.dir processed) .enil))
        (remaining.names ++ ["data"]) =
      .econs "data" (.dir (processed.append remaining)) .enil
  | .enil, processed, _ => by
    simp [Entries.names, Entries.append, List.foldl, renameStep, append_enil]
  | .econs f x r, processed, h => by
    simp only [Entries.hasName, Bool.or_eq_false_iff, decide_eq_false_iff_not] at h
    have hstep :
        renameStep ((Entries.econs f x r).append (.econs "data" (.dir processed) .enil)) f
          = r.append (.econs "data" (.dir (processed.push f x)) .enil) := by
      simp only [renameStep, if_neg h.1, Entries.append]
      simp only [renameIntoData, Entries.lookupName, if_pos rfl,
        Entries.removeName]
      exact addUnderData_past r h.2 processed f x
    calc
      List.foldl renameStep
          ((Entries.econs f x r).append (.econs "data" (.dir processed) .enil))
          ((Entries.econs f x r).names ++ ["data"])
        = List.foldl renameStep
            (r.append (.econs "data" (.dir (processed.push f x)) .enil))
            (r.names ++ ["data"]) := by
          simp only [Entries.names, List.cons_append, List.foldl_cons, hstep]
      _ = .econs "data" (.dir ((processed.push f x).append r)) .enil :=
          reorg_loop r (processed.push f x) h.2
      _ = .econs "data" (.dir (processed.append (.econs f x r))) .enil := by
          rw [push_eq_append, append_assoc]
          simp [Entries.append]

theorem reorganize_eq (es : Entries) (h : es.hasName "data" = false) :
    reorganize es = .econs "data" (.dir es) .enil := by
  have hfold : reorganize es =
      List.foldl renameStep (es.push "data" (.dir .enil))
        ((es.push "data" (.dir .enil)).names) := rfl
  rw [hfold, push_eq_append]
  have hn : (es.append (.econs "data" (.dir .enil) .enil)).names
      = es.names ++ ["data"] := by
    rw [names_append]; rfl
  rw [hn, reorg_loop es .enil h]
  rfl

/-! ## Lemmas about path lookup and replacement -/

theorem getInDir_set (repl : FSNode) :
    ∀ (es : Entries) (name : String) (rest : List String) (x : FSNode),
      getInDir es name rest = some x →
      getInDir (setInDir es name rest repl) name rest = some repl
  | .enil, name, rest, x => by intro h; simp [getInDir] at h
  | .econs m y r, name, rest, x => by
    intro h
    by_cases hm : m = name
    · subst hm
      cases rest with
      | nil => simp [getInDir, setInDir]
      | cons n2 r2 =>
        cases y with
        | file c => simp [getInDir] at h
        | dir des =>
          simp only [getInDir, setInDir, if_pos rfl] at h ⊢
          exact getInDir_set repl des n2 r2 x h
    · cases rest <;> cases y <;>
        (simp only [getInDir, setInDir, if_neg hm] at h ⊢
         exact getInDir_set repl r name _ x h)

theorem getNode_set (fs : FSNode) (p : List String) (x repl : FSNode)
    (h : getNode fs p = some x) : getNode (setNode fs p repl) p = some repl := by
  cases p with
  | nil => simp [getNode, setNode]
  | cons name rest =>
    cases fs with
    | file c => simp [getNode] at h
    | dir es =>
      simp only [getNode, setNode] at h ⊢
      exact getInDir_set repl es name rest x h

/-! ## The success path of `make_bag` in closed form -/

theorem make_bag_success_eq (st : PState) (bag_dir : List String)
    (bi : Option (List (String × String))) (processes : Nat) (today : String)
    (es : Entries) (hdir : getNode st.fs bag_dir = some (.dir es))
    (hnew : es.hasName "data" = false) :
    make_bag st bag_dir bi processes today =
      { fs := setNode st.fs bag_dir (.dir (.econs "data" (.dir es)
          (.econs "manifest-md5.txt"
            (.file (strBytes (String.join
              (make_manifest processes (walkDir "data" es)).lines)))
            (.econs "bagit.txt" (.file (strBytes bagit_txt))
              (.econs "bag-info.txt"
                (.file (strBytes (String.join (bag_info_lines
                  (setKey (setKey (bi.getD []) "Bagging-Date" today) "Payload-Oxum"
                    (make_manifest processes (walkDir "data" es)).oxum)))))
                .enil))))),
        cwd := st.cwd, err := none,
        bag_info := bi.map (fun m =>
          setKey (setKey m "Bagging-Date" today) "Payload-Oxum"
            (make_manifest processes (walkDir "data" es)).oxum),
        log_errors := [] } := by
  unfold make_bag
  simp only [hdir, hnew, Bool.false_eq_true, if_false, reorganize_eq es hnew]
  rfl

/-! ## Lemmas about the hexadecimal rendering -/

theorem hexChar_mem (n : Nat) : hexChar n ∈ hexDigits := by
  by_cases h : n < 16
  · interval_cases n <;> decide
  · unfold hexChar
    rw [List.getD_eq_default]
    · decide
    · simp only [hexDigits]
      simp
      omega

theorem md5hex_chars (msg : List Nat) : ∀ c ∈ (md5hex msg).data, c ∈ hexDigits := by
  intro c hc
  simp only [md5hex] at hc
  rw [List.mem_flatMap] at hc
  rcases hc with ⟨b, _, hb⟩
  simp only [byteHex, List.mem_cons, List.not_mem_nil, or_false] at hb
  rcases hb with hb | hb <;> rw [hb] <;> exact hexChar_mem _

theorem mem_keys_setKey_of_mem (l : List (String × String)) (k k2 v : String)
    (h : k ∈ l.map Prod.fst) : k ∈ (setKey l k2 v).map Prod.fst := by
  rw [keys_setKey]
  by_cases hm : k2 ∈ l.map Prod.fst <;> simp [hm, h]

/-! ## The claims -/

/-- C1 counterexample: on a bag directory that already contains a `data`
entry, `os.mkdir('data')` raises; the exception is logged and the working
directory is restored, but `make_bag` returns with no error propagated to
the caller, contradicting the claim that the error propagates as a single
terminal error. -/
theorem make_bag_exception_swallowed_cex :
    (make_bag stClash ["d"] none 1 "2011-01-01").log_errors =
      ["[Errno 17] File exists: data"] ∧
    (make_bag stClash ["d"] none 1 "2011-01-01").err = none ∧
    (make_bag stClash ["d"] none 1 "2011-01-01").cwd = ["w"] := by
  decide

/-- C1 (amended): when an exception is raised inside the `try` block of
`make_bag` (in this model, the `os.mkdir('data')` failure on a directory
that already has a `data` entry), the exception is logged and the working
directory is restored to its pre-call value, but the `except` clause
suppresses the exception: `make_bag` returns normally, no error reaches the
caller, and the partial bag is presented as successful. -/
theorem make_bag_exception_logged_and_cwd_restored (st : PState)
    (bag_dir : List String) (bi : Option (List (String × String)))
    (processes : Nat) (today : String) (es : Entries)
    (hdir : getNode st.fs bag_dir = some (.dir es))
    (hclash : es.hasName "data" = true) :
    (make_bag st bag_dir bi processes today).err = none ∧
    (make_bag st bag_dir bi processes today).cwd = st.cwd ∧
    (make_bag st bag_dir bi processes today).fs = st.fs ∧
    (make_bag st bag_dir bi processes today).log_errors =
      ["[Errno 17] File exists: data"] := by
  unfold make_bag
  simp [hdir, hclash]

/-- Witness for the amended C1 theorem at a concrete input. -/
theorem make_bag_exception_logged_and_cwd_restored_witness :
    (make_bag stClash ["d"] none 1 "2011-01-01").err = none ∧
    (make_bag stClash ["d"] none 1 "2011-01-01").cwd = stClash.cwd ∧
    (make_bag stClash ["d"] none 1 "2011-01-01").fs = stClash.fs ∧
    (make_bag stClash ["d"] none 1 "2011-01-01").log_errors =
      ["[Errno 17] File exists: data"] :=
  make_bag_exception_logged_and_cwd_restored stClash ["d"] none 1 "2011-01-01"
    (.econs "data" (.file []) .enil) (by rfl) (by decide)

/-- C2: on a path that does not name an existing directory, `make_bag`
raises the missing-directory error before performing any mutation: the
filesystem, the working directory and the caller's metadata mapping are
all unchanged, and the error is logged and propagated. -/
theorem make_bag_missing_directory (st : PState) (bag_dir : List String)
    (bi : Option (List (String × String))) (processes : Nat) (today : String)
    (h : isDirAt st.fs bag_dir = false) :
    make_bag st bag_dir bi processes today =
      { fs := st.fs, cwd := st.cwd,
        err := some ("no such bag directory " ++ pathStr bag_dir),
        bag_info := bi,
        log_errors := ["no such bag directory " ++ pathStr bag_dir] } := by
  unfold isDirAt at h
  unfold make_bag
  cases hg : getNode st.fs bag_dir with
  | none => rfl
  | some n =>
    cases n with
    | file c => rfl
    | dir es => rw [hg] at h; simp at h

/-- Witness for the C2 theorem at a concrete input. -/
theorem make_bag_missing_directory_witness :
    make_bag st9 ["nope"] none 1 "2011-01-01" =
      { fs := st9.fs, cwd := st9.cwd,
        err := some ("no such bag directory " ++ pathStr ["nope"]),
        bag_info := none,
        log_errors := ["no such bag directory " ++ pathStr ["nope"]] } :=
  make_bag_missing_directory st9 ["nope"] none 1 "2011-01-01" (by decide)

/-- C3: on a directory with no `data` entry, `make_bag` succeeds and every
original top-level entry is moved (by the per-entry rename loop) into the
newly created `data` subdirectory: afterwards the bag root holds exactly
one immediate subdirectory, named `data`, whose entries are exactly the
original entries, next to the three generated tag files. -/
theorem make_bag_single_payload_dir (st : PState) (bag_dir : List String)
    (bi : Option (List (String × String))) (processes : Nat) (today : String)
    (es : Entries) (hdir : getNode st.fs bag_dir = some (.dir es))
    (hnew : es.hasName "data" = false) :
    (make_bag st bag_dir bi processes today).err = none ∧
    ∃ mBytes iBytes,
      getNode (make_bag st bag_dir bi processes today).fs bag_dir =
        some (.dir (.econs "data" (.dir es)
          (.econs "manifest-md5.txt" (.file mBytes)
            (.econs "bagit.txt" (.file (strBytes bagit_txt))
              (.econs "bag-info.txt" (.file iBytes) .enil))))) := by
  rw [make_bag_success_eq st bag_dir bi processes today es hdir hnew]
  exact ⟨rfl, _, _, getNode_set st.fs bag_dir (.dir es) _ hdir⟩

/-- Witness for the C3 theorem at a concrete input. -/
theorem make_bag_single_payload_dir_witness :
    (make_bag st9 ["d"] none 1 "2011-01-01").err = none ∧
    ∃ mBytes iBytes,
      getNode (make_bag st9 ["d"] none 1 "2011-01-01").fs ["d"] =
        some (.dir (.econs "data" (.dir dEntries)
          (.econs "manifest-md5.txt" (.file mBytes)
            (.econs "bagit.txt" (.file (strBytes bagit_txt))
              (.econs "bag-info.txt" (.file iBytes) .enil))))) :=
  make_bag_single_payload_dir st9 ["d"] none 1 "2011-01-01" dEntries
    (by rfl) (by rfl)

/-- C4: for a payload tree with `countFiles es` files totalling
`totalBytes es` bytes, the manifest builder writes exactly one line per
file and returns the Oxum `"{S}.{N}"`; for the empty payload it writes no
lines and returns `"0.0"`. -/
theorem manifest_entry_count_and_oxum (processes : Nat) (p : String)
    (es : Entries) :
    (make_manifest processes (walkDir p es)).lines.length = countFiles es ∧
    (make_manifest processes (walkDir p es)).oxum =
      toString (totalBytes es) ++ "." ++ toString (countFiles es) ∧
    (make_manifest processes (walkDir p Entries.enil)).lines = [] ∧
    (make_manifest processes (walkDir p Entries.enil)).oxum = "0.0" := by
  refine ⟨?_, ?_, ?_, ?_⟩
  · simp [make_manifest_eq, walkDir_count]
  · simp only [make_manifest_eq]
    rw [walkDir_bytes, walkDir_count]
  · have h0 : walkDir p Entries.enil = [] := rfl
    rw [make_manifest_eq, h0]
    rfl
  · have h0 : walkDir p Entries.enil = [] := rfl
    rw [make_manifest_eq, h0]
    decide

/-- C5: the `processes` argument of the manifest builder never affects its
output: for any two pool sizes the manifest lines (hence the set of
(digest, size) pairs) and the Oxum are identical, because `Pool.map`
reassembles the chunked results in input order. -/
theorem manifest_independent_of_processes (p q : Nat)
    (files : List (String × List Nat)) :
    make_manifest p files = make_manifest q files := by
  rw [make_manifest_eq, make_manifest_eq]

/-- C6: the `bag-info.txt` write loop renders one line `"{key}: {value}\n"`
per key of the updated dictionary (the rendered headers are a permutation
of its keys), with the headers sorted in strictly ascending lexical order,
and the system-computed `Bagging-Date` and `Payload-Oxum` keys are always
present, overriding any caller-supplied values under those keys. -/
theorem bag_info_lines_sorted_and_overridden (m : List (String × String))
    (today ox : String) (hnd : (m.map Prod.fst).Nodup) :
    bag_info_lines (setKey (setKey m "Bagging-Date" today) "Payload-Oxum" ox) =
      (List.insertionSort headerLe
          ((setKey (setKey m "Bagging-Date" today) "Payload-Oxum" ox).map
            Prod.fst)).map
        (fun h => h ++ ": " ++
          lookupD (setKey (setKey m "Bagging-Date" today) "Payload-Oxum" ox) h
            ++ "\n") ∧
    (List.insertionSort headerLe
        ((setKey (setKey m "Bagging-Date" today) "Payload-Oxum" ox).map
          Prod.fst)).Perm
      ((setKey (setKey m "Bagging-Date" today) "Payload-Oxum" ox).map Prod.fst) ∧
    (List.insertionSort headerLe
        ((setKey (setKey m "Bagging-Date" today) "Payload-Oxum" ox).map
          Prod.fst)).Pairwise headerLt ∧
    "Bagging-Date" ∈ List.insertionSort headerLe
      ((setKey (setKey m "Bagging-Date" today) "Payload-Oxum" ox).map Prod.fst) ∧
    "Payload-Oxum" ∈ List.insertionSort headerLe
      ((setKey (setKey m "Bagging-Date" today) "Payload-Oxum" ox).map Prod.fst) ∧
    lookupD (setKey (setKey m "Bagging-Date" today) "Payload-Oxum" ox)
      "Bagging-Date" = today ∧
    lookupD (setKey (setKey m "Bagging-Date" today) "Payload-Oxum" ox)
      "Payload-Oxum" = ox := by
  have hkeys : ((setKey (setKey m "Bagging-Date" today) "Payload-Oxum" ox).map
      Prod.fst).Nodup :=
    keys_setKey_nodup _ _ _ (keys_setKey_nodup _ _ _ hnd)
  have hperm := List.perm_insertionSort headerLe
    ((setKey (setKey m "Bagging-Date" today) "Payload-Oxum" ox).map Prod.fst)
  have hsorted : List.Sorted headerLe (List.insertionSort headerLe
      ((setKey (setKey m "Bagging-Date" today) "Payload-Oxum" ox).map
        Prod.fst)) :=
    List.sorted_insertionSort headerLe _
  have hnodups : (List.insertionSort headerLe
      ((setKey (setKey m "Bagging-Date" today) "Payload-Oxum" ox).map
        Prod.fst)).Nodup :=
    hperm.nodup_iff.mpr hkeys
  refine ⟨rfl, hperm, pairwise_lt_of_sorted_nodup _ hsorted hnodups, ?_, ?_,
    ?_, lookupD_setKey_self _ _ _⟩
  · exact hperm.mem_iff.mpr
      (mem_keys_setKey_of_mem _ _ _ _ (mem_keys_setKey _ _ _))
  · exact hperm.mem_iff.mpr (mem_keys_setKey _ _ _)
  · rw [lookupD_setKey_ne _ _ _ _ (by decide)]
    exact lookupD_setKey_self _ _ _

/-- Witness for the C6 theorem at a dictionary that already carries a
caller-supplied `Bagging-Date`. -/
theorem bag_info_lines_sorted_and_overridden_witness :
    bag_info_lines (setKey (setKey [("Bagging-Date", "1999-01-01")]
        "Bagging-Date" "2011-01-01") "Payload-Oxum" "4.2") =
      (List.insertionSort headerLe
          ((setKey (setKey [("Bagging-Date", "1999-01-01")]
            "Bagging-Date" "2011-01-01") "Payload-Oxum" "4.2").map
            Prod.fst)).map
        (fun h => h ++ ": " ++
          lookupD (setKey (setKey [("Bagging-Date", "1999-01-01")]
            "Bagging-Date" "2011-01-01") "Payload-Oxum" "4.2") h ++ "\n") ∧
    (List.insertionSort headerLe
        ((setKey (setKey [("Bagging-Date", "1999-01-01")]
          "Bagging-Date" "2011-01-01") "Payload-Oxum" "4.2").map
          Prod.fst)).Perm
      ((setKey (setKey [("Bagging-Date", "1999-01-01")]
        "Bagging-Date" "2011-01-01") "Payload-Oxum" "4.2").map Prod.fst) ∧
    (List.insertionSort headerLe
        ((setKey (setKey [("Bagging-Date", "1999-01-01")]
          "Bagging-Date" "2011-01-01") "Payload-Oxum" "4.2").map
          Prod.fst)).Pairwise headerLt ∧
    "Bagging-Date" ∈ List.insertionSort headerLe
      ((setKey (setKey [("Bagging-Date", "1999-01-01")]
        "Bagging-Date" "2011-01-01") "Payload-Oxum" "4.2").map Prod.fst) ∧
    "Payload-Oxum" ∈ List.insertionSort headerLe
      ((setKey (setKey [("Bagging-Date", "1999-01-01")]
        "Bagging-Date" "2011-01-01") "Payload-Oxum" "4.2").map Prod.fst) ∧
    lookupD (setKey (setKey [("Bagging-Date", "1999-01-01")]
      "Bagging-Date" "2011-01-01") "Payload-Oxum" "4.2") "Bagging-Date" =
      "2011-01-01" ∧
    lookupD (setKey (setKey [("Bagging-Date", "1999-01-01")]
      "Bagging-Date" "2011-01-01") "Payload-Oxum" "4.2") "Payload-Oxum" =
      "4.2" :=
  bag_info_lines_sorted_and_overridden [("Bagging-Date", "1999-01-01")]
    "2011-01-01" "4.2" (by decide)

/-- C7: the digest worker reads the whole file in pieces of at most 16384
bytes whose concatenation is the file's content, and returns the lowercase
hexadecimal MD5 digest of the content together with the exact byte count;
on the empty file it returns the MD5 identity digest and size 0. -/
theorem manifest_line_chunked_digest (fn : String) (content : List Nat) :
    (∀ ch ∈ (readLoop (content.length + 1) [] 0 content).1, ch.length ≤ 16384) ∧
    (readLoop (content.length + 1) [] 0 content).1.flatten = content ∧
    manifest_line fn content = (md5hex content, fn, content.length) ∧
    manifest_line fn [] = ("d41d8cd98f00b204e9800998ecf8427e", fn, 0) ∧
    ∀ c ∈ (md5hex content).data, c ∈ hexDigits := by
  refine ⟨?_, ?_, manifest_line_eq fn content, ?_, md5hex_chars content⟩
  · rw [readLoop_eq (content.length + 1) content [] 0 (Nat.lt_succ_self _)]
    intro ch hch
    simp only [List.nil_append] at hch
    exact chunkList_mem_length 16384 content.length content ch hch
  · rw [readLoop_eq (content.length + 1) content [] 0 (Nat.lt_succ_self _)]
    simp only [List.nil_append]
    exact chunkList_flatten 16384 (by omega) content.length content le_rfl
  · have he : md5hex [] = "d41d8cd98f00b204e9800998ecf8427e" := by decide
    rw [manifest_line_eq fn []]
    rw [he]
    rfl

/-- C8 counterexample: for a payload holding the single file `a.txt`, the
manifest line's path is `data/a.txt` — the path relative to the bag root,
carrying the payload directory name — not the payload-relative `a.txt`
the claim states. -/
theorem manifest_path_bag_root_relative_cex :
    (make_manifest 1 (walkDir "data" oneFileEntries)).lines =
      ["49f68a5c8493ec2c0bf489821c21fc3b  data/a.txt\n"] ∧
    (make_manifest 1 (walkDir "data" oneFileEntries)).lines ≠
      ["49f68a5c8493ec2c0bf489821c21fc3b  a.txt\n"] := by
  decide

/-- C8 (amended): the manifest holds exactly one line per payload file, of
the form `"<hex-digest>  <path>\n"` with exactly two spaces as separator,
where the path is the walker's path relative to the bag root: the payload
directory name `data`, a slash, then the payload-relative path. -/
theorem manifest_line_format (processes : Nat) (es : Entries) :
    (make_manifest processes (walkDir "data" es)).lines =
      (walkDir "data" es).map (fun fc => md5hex fc.2 ++ "  " ++ fc.1 ++ "\n") ∧
    ∀ fc ∈ walkDir "data" es, ∃ r, fc.1 = "data" ++ "/" ++ r := by
  exact ⟨by rw [make_manifest_eq], walk_path_shape "data" es⟩

/-- C9 counterexample: bagging the spec's concrete scenario directory
produces the MD5 digests `49f68a5c8493ec2c0bf489821c21fc3b` for "hi" and
`6d0007e52f7afb7d5a0650b0ffb8a4d1` for "yo"; the digests printed in the
claim (a 31-character truncation for "hi", an unrelated value for "yo")
are not the digests of the two manifest lines. -/
theorem concrete_scenario_cex :
    (make_manifest 1 (walkDir "data" dEntries)).lines =
      ["49f68a5c8493ec2c0bf489821c21fc3b  data/a.txt\n",
       "6d0007e52f7afb7d5a0650b0ffb8a4d1  data/sub/b.txt\n"] ∧
    md5hex (strBytes "hi") ≠ "49f68a5c8493ec2c0bf489821c21fc3" ∧
    md5hex (strBytes "yo") ≠ "eb9c2bf0eb63f3a7bc0ea37ef18aeba5" := by
  decide

/-- C9 (amended): for the directory `d` holding `a.txt` ("hi", 2 bytes) and
`sub/b.txt` ("yo", 2 bytes), bagging succeeds, the payload subdirectory
holds `a.txt` and `sub/b.txt`, the manifest holds exactly the two lines
with MD5 digests `49f68a5c8493ec2c0bf489821c21fc3b` ("hi") and
`6d0007e52f7afb7d5a0650b0ffb8a4d1` ("yo"), and the Oxum equals "4.2". -/
theorem concrete_scenario_amended :
    (make_bag st9 ["d"] none 1 "2011-01-01").err = none ∧
    getNode (make_bag st9 ["d"] none 1 "2011-01-01").fs ["d", "data", "a.txt"] =
      some (.file (strBytes "hi")) ∧
    getNode (make_bag st9 ["d"] none 1 "2011-01-01").fs
        ["d", "data", "sub", "b.txt"] = some (.file (strBytes "yo")) ∧
    getNode (make_bag st9 ["d"] none 1 "2011-01-01").fs ["d", "manifest-md5.txt"] =
      some (.file (strBytes ("49f68a5c8493ec2c0bf489821c21fc3b  data/a.txt\n" ++
        "6d0007e52f7afb7d5a0650b0ffb8a4d1  data/sub/b.txt\n"))) ∧
    (make_manifest 1 (walkDir "data" dEntries)).oxum = "4.2" ∧
    getNode (make_bag st9 ["d"] none 1 "2011-01-01").fs ["d", "bag-info.txt"] =
      some (.file (strBytes "Bagging-Date: 2011-01-01\nPayload-Oxum: 4.2\n")) := by
  decide

/-- C10: when a metadata dictionary is passed and `make_bag` reaches the
metadata-writing step, the caller's dictionary is updated in place: after
the call it carries `Bagging-Date` (the computed date) and `Payload-Oxum`
(the computed Oxum), overriding any values the caller had stored under
those keys. -/
theorem make_bag_mutates_caller_bag_info (st : PState) (bag_dir : List String)
    (m : List (String × String)) (processes : Nat) (today : String)
    (es : Entries) (hdir : getNode st.fs bag_dir = some (.dir es))
    (hnew : es.hasName "data" = false) :
    ∃ ox,
      (make_bag st bag_dir (some m) processes today).bag_info =
        some (setKey (setKey m "Bagging-Date" today) "Payload-Oxum" ox) ∧
      lookupD (setKey (setKey m "Bagging-Date" today) "Payload-Oxum" ox)
        "Payload-Oxum" = ox ∧
      lookupD (setKey (setKey m "Bagging-Date" today) "Payload-Oxum" ox)
        "Bagging-Date" = today := by
  rw [make_bag_success_eq st bag_dir (some m) processes today es hdir hnew]
  refine ⟨(make_manifest processes (walkDir "data" es)).oxum, rfl,
    lookupD_setKey_self _ _ _, ?_⟩
  rw [lookupD_setKey_ne _ _ _ _ (by decide)]
  exact lookupD_setKey_self _ _ _

/-- Witness for the C10 theorem at a concrete input whose dictionary
already holds both reserved keys. -/
theorem make_bag_mutates_caller_bag_info_witness :
    ∃ ox,
      (make_bag st9 ["d"]
          (some [("Payload-Oxum", "bogus"), ("Bagging-Date", "1999-01-01")])
          1 "2011-01-01").bag_info =
        some (setKey (setKey [("Payload-Oxum", "bogus"),
          ("Bagging-Date", "1999-01-01")] "Bagging-Date" "2011-01-01")
          "Payload-Oxum" ox) ∧
      lookupD (setKey (setKey [("Payload-Oxum", "bogus"),
          ("Bagging-Date", "1999-01-01")] "Bagging-Date" "2011-01-01")
          "Payload-Oxum" ox) "Payload-Oxum" = ox ∧
      lookupD (setKey (setKey [("Payload-Oxum", "bogus"),
          ("Bagging-Date", "1999-01-01")] "Bagging-Date" "2011-01-01")
          "Payload-Oxum" ox) "Bagging-Date" = "2011-01-01" :=
  make_bag_mutates_caller_bag_info st9 ["d"]
    [("Payload-Oxum", "bogus"), ("Bagging-Date", "1999-01-01")]
    1 "2011-01-01" dEntries (by rfl) (by rfl)

end Bagit
